import Mathlib

/-!
Shallow embedding of the subscription-filter reconciliation lambdas
(`sample-data/index.py` and `sample-data/update.py`).

The embedding models:
* `fnmatch.fnmatch` glob matching (POSIX, case-sensitive: `*`, `?`,
  `[...]` classes with `!` negation and `a-b` ranges, an unterminated
  `[` is a literal) via pattern compilation to tokens plus a matcher;
* `get_prefix` over the JSON `prefix` field;
* the system state (SSM rule parameters, the tracking parameter,
  CloudWatch log groups and managed subscription filters) and the
  operations `add_subscription_filter`,
  `update_subscription_filter_on_existing_log_groups`,
  `reconcile_subscription_filters`, together with the trace of mutating
  backend calls each operation issues;
* `sync_parameters_to_central_account` from `update.py` with the
  central parameter store and the Python `str.replace`/`str.strip` key
  normalisation it performs.

Modelling conventions: machine state that the code reads through boto3
clients is explicit data; a raised Python exception is `Except.error ()`;
reads are not traced, mutating calls are.  Backend mutations are assumed
to succeed except where the code handles failures (deletion outcomes are
an explicit oracle, absent parameters raise on get/delete).  Each rule
record's `log_group_name_pattern`, when present, is taken to be a JSON
string (the code would fault later on non-strings), and its `prefix`
field is absent, JSON null, or a JSON string.
-/

namespace SubFilter

/-! ### Glob matching (`fnmatch.fnmatch`) -/

/-- One item of a `[...]` character class: a single character or an
`a-b` range (matching by character order). -/
inductive ClsItem where
  | one (c : Char)
  | rng (a b : Char)
deriving DecidableEq, Repr

/-- A compiled glob token, mirroring what `fnmatch.translate` emits:
a literal character, `?` (any one char), `*` (any sequence), or a
character class with optional negation. -/
inductive GlobTok where
  | lit (c : Char)
  | anyOne
  | anySeq
  | cls (neg : Bool) (items : List ClsItem)
deriving DecidableEq, Repr

/-- Scan for the closing `]` of a character class, returning the
content before it and the remainder after it. -/
def scanToClose : List Char → Option (List Char × List Char)
  | [] => none
  | c :: t =>
    if c = ']' then some ([], t)
    else
      match scanToClose t with
      | none => none
      | some (s, r) => some (c :: s, r)

/-- Parse the chars after a `[`: a leading `!` negates, a `]` right
after that is literal content, then everything up to the closing `]`.
`none` means there is no closing `]` (the `[` is then a literal). -/
def bracketScan (cs : List Char) : Option (Bool × List Char × List Char) :=
  let neg : Bool := cs.head? = some '!'
  let cs1 := if neg then cs.tail else cs
  let lead : Bool := cs1.head? = some ']'
  let cs2 := if lead then cs1.tail else cs1
  match scanToClose cs2 with
  | none => none
  | some (s, r) => some (neg, if lead then ']' :: s else s, r)

/-- Interpret class content: `a-b` between two characters is a range,
anything else (including a leading or trailing `-`) is a literal. -/
def clsItems : List Char → List ClsItem
  | [] => []
  | a :: '-' :: b :: rest => ClsItem.rng a b :: clsItems rest
  | c :: rest => ClsItem.one c :: clsItems rest

theorem scanToClose_rest_lt :
    ∀ cs s r, scanToClose cs = some (s, r) → r.length < cs.length := by
  intro cs
  induction cs with
  | nil => intro s r h; simp [scanToClose] at h
  | cons c t ih =>
    intro s r h
    rw [scanToClose] at h
    by_cases hc : c = ']'
    · simp [hc] at h
      simp [← h.2]
    · simp only [if_neg hc] at h
      split at h
      · simp at h
      · rename_i s' r' hrec
        simp only [Option.some.injEq, Prod.mk.injEq] at h
        have := ih s' r' hrec
        simp only [← h.2, List.length_cons]
        omega

theorem bracketScan_rest_le :
    ∀ cs neg s r, bracketScan cs = some (neg, s, r) → r.length ≤ cs.length := by
  intro cs neg s r h
  rw [bracketScan] at h
  set cs1 := if (cs.head? = some '!' : Bool) then cs.tail else cs with hcs1
  set cs2 := if (cs1.head? = some ']' : Bool) then cs1.tail else cs1 with hcs2
  have h1 : cs1.length ≤ cs.length := by
    rw [hcs1]; split
    · simp [List.length_tail]
    · exact le_refl _
  have h2 : cs2.length ≤ cs1.length := by
    rw [hcs2]; split
    · simp [List.length_tail]
    · exact le_refl _
  split at h
  · simp at h
  · rename_i s' r' hrec
    simp only [Option.some.injEq, Prod.mk.injEq] at h
    obtain ⟨-, -, hr⟩ := h
    subst hr
    have := scanToClose_rest_lt _ _ _ hrec
    omega


/-- Fuel-driven glob pattern compiler; fuel bounds the number of
characters consumed, one unit per emitted token. -/
def parseGlobAux : Nat → List Char → List GlobTok
  | 0, _ => []
  | _ + 1, [] => []
  | n + 1, c :: cs =>
    if c = '*' then GlobTok.anySeq :: parseGlobAux n cs
    else if c = '?' then GlobTok.anyOne :: parseGlobAux n cs
    else if c = '[' then
      match bracketScan cs with
      | none => GlobTok.lit '[' :: parseGlobAux n cs
      | some (neg, s, r) => GlobTok.cls neg (clsItems s) :: parseGlobAux n r
    else GlobTok.lit c :: parseGlobAux n cs

/-- Compile a glob pattern to tokens (embedding `fnmatch.translate`). -/
def parseGlob (cs : List Char) : List GlobTok := parseGlobAux cs.length cs

/-- Does character `c` belong to the class items? -/
def clsHas (items : List ClsItem) (c : Char) : Bool :=
  items.any fun it =>
    match it with
    | ClsItem.one a => c = a
    | ClsItem.rng a b => a ≤ c ∧ c ≤ b

/-- Token-list matcher: full-string matching, `anySeq` tries every
suffix of the remaining input. -/
def tokMatch : List GlobTok → List Char → Bool
  | [], s => s.isEmpty
  | GlobTok.lit c :: ps, s =>
    match s with
    | [] => false
    | c' :: s' => c' = c && tokMatch ps s'
  | GlobTok.anyOne :: ps, s =>
    match s with
    | [] => false
    | _ :: s' => tokMatch ps s'
  | GlobTok.anySeq :: ps, s => s.tails.any fun t => tokMatch ps t
  | GlobTok.cls neg items :: ps, s =>
    match s with
    | [] => false
    | c :: s' => (if neg then !clsHas items c else clsHas items c) && tokMatch ps s'

/-- `fnmatch.fnmatch(name, pattern)` on a case-sensitive platform. -/
def fnmatch (name pattern : String) : Bool :=
  tokMatch (parseGlob pattern.toList) name.toList

/-! ### Rule records and `get_prefix` -/

/-- The JSON `prefix` field of a rule record: absent, JSON `null`, or a
JSON string. -/
inductive PrefixField where
  | absent
  | null
  | strVal (s : String)
deriving DecidableEq, Repr

/-- `get_prefix` (identical in `index.py` and `update.py`).  A present
string is wrapped as `"%^" ++ s ++ "*%"` unless it equals `""` or
`"[]"`, in which case it is returned unchanged; an absent field yields
`"[]"`; a JSON `null` reaches `"%^" + prefix + "*%"` and raises
`TypeError`, modelled as `Except.error ()`. -/
def getPrefixExpr : PrefixField → Except Unit String
  | PrefixField.absent => Except.ok "[]"
  | PrefixField.null => Except.error ()
  | PrefixField.strVal s =>
    if s ≠ "" ∧ s ≠ "[]" then Except.ok ("%^" ++ s ++ "*%") else Except.ok s

/-- The stored value of one rule parameter as the reconciliation code
reads it: `invalid` (`json.loads` raises), `missingPattern` (valid JSON
without a usable `log_group_name_pattern` entry, so indexing raises),
or a rule with a string pattern and a `prefix` field. -/
inductive RuleVal where
  | invalid
  | missingPattern
  | rule (pat : String) (pfx : PrefixField)
deriving DecidableEq, Repr

/-! ### System state and backend calls -/

/-- Workload-account state visible to `index.py`: the rule parameters
under `SSM_PARAMETER_ROOT` in store order (keyed by full name), the
tracking parameter value (`none` when absent), the log groups in
listing order, and for each log group the pattern of its managed
subscription filter (the one named `FILTER_NAME`), if present.
`put_subscription_filter` with a fixed filter name overwrites, so at
most one managed filter exists per log group. -/
structure SysState where
  params : List (String × RuleVal)
  tracking : Option String
  logGroups : List String
  filters : String → Option String

/-- Default `FILTERS_TRACKING_PARAM` (from `VARIABLE_LOGGING_NAME = "cpl"`). -/
def trackingParamName : String := "Cpl_Filters"

/-- Default `FILTER_NAME` (from `VARIABLE_LOGGING_NAME = "cpl"`). -/
def managedFilterName : String := "CplAutoCreatedFilter"

/-- A mutating backend call issued by the workload-account lambda. -/
inductive ApiCall where
  | putSubscriptionFilter (g pat : String)
  | deleteSubscriptionFilter (g : String)
  | putParameter (n v : String)
  | deleteParameter (n : String)
deriving DecidableEq, Repr

/-- Outcome of one `delete_subscription_filter` call:
success, `ResourceNotFoundException`, or a generic error. -/
inductive DeleteOutcome where
  | ok
  | notFound
  | err
deriving DecidableEq, Repr

/-! ### `reconcile_subscription_filters` -/

/-- Extract `log_group_name_pattern` from one parsed record; an
unreadable record raises. -/
def patternOf : RuleVal → Except Unit String
  | RuleVal.rule p _ => Except.ok p
  | _ => Except.error ()

/-- Step 1 of `reconcile_subscription_filters`: collect the pattern of
every rule record in store order; any unreadable record aborts the
pass. -/
def listPatterns : List (String × RuleVal) → Except Unit (List String)
  | [] => Except.ok []
  | nv :: tl =>
    match patternOf nv.2 with
    | Except.error e => Except.error e
    | Except.ok p =>
      match listPatterns tl with
      | Except.error e => Except.error e
      | Except.ok ps => Except.ok (p :: ps)

/-- Does the log group name match at least one of the patterns? -/
def matchesAny (g : String) (pats : List String) : Bool :=
  pats.any fun p => fnmatch g p

/-- `get_log_groups_with_filters`: log groups, in listing order, that
carry the managed filter. -/
def logGroupsWithFilters (st : SysState) : List String :=
  st.logGroups.filter fun g => (st.filters g).isSome

/-- Split a character list at every `','` (Python `str.split(",")`);
the empty string yields `[""]`. -/
def splitCommaChars : List Char → List (List Char)
  | [] => [[]]
  | c :: cs =>
    let r := splitCommaChars cs
    if c = ',' then [] :: r
    else
      match r with
      | [] => [[c]]
      | h :: t => (c :: h) :: t

/-- Python `value.split(",")`. -/
def splitComma (s : String) : List String :=
  (splitCommaChars s.toList).map fun l => String.mk l

/-- Concatenate with `','` between entries. -/
def joinCommaChars : List (List Char) → List Char
  | [] => []
  | [x] => x
  | x :: y :: t => x ++ ',' :: joinCommaChars (y :: t)

/-- Python `",".join(entries)`. -/
def joinComma (l : List String) : String :=
  String.mk (joinCommaChars (l.map String.data))

instance {ε α : Type} [DecidableEq ε] [DecidableEq α] : DecidableEq (Except ε α) :=
  fun x y =>
    match x, y with
    | Except.ok a, Except.ok b =>
      if h : a = b then isTrue (by rw [h])
      else isFalse (fun hc => h (Except.ok.inj hc))
    | Except.error e, Except.error f =>
      if h : e = f then isTrue (by rw [h])
      else isFalse (fun hc => h (Except.error.inj hc))
    | Except.ok _, Except.error _ => isFalse (fun hc => Except.noConfusion hc)
    | Except.error _, Except.ok _ => isFalse (fun hc => Except.noConfusion hc)

/-- Step 4 removal loop: attempt `delete_subscription_filter` on every
listed group; `ok` and `notFound` both count as removed, a generic
error increments the failure count and processing continues with the
remaining groups. -/
def removeFilters (env : String → DeleteOutcome) (fs : String → Option String) :
    List String → (String → Option String) × Nat × Nat × List ApiCall
  | [] => (fs, 0, 0, [])
  | g :: rest =>
    match env g with
    | DeleteOutcome.err =>
      let (fs1, r, f, tr) := removeFilters env fs rest
      (fs1, r, f + 1, ApiCall.deleteSubscriptionFilter g :: tr)
    | _ =>
      let (fs1, r, f, tr) :=
        removeFilters env (fun x => if x = g then none else fs x) rest
      (fs1, r + 1, f, ApiCall.deleteSubscriptionFilter g :: tr)

/-- `reconcile_subscription_filters`.  Returns the pass outcome
(`error` = a raised exception, `ok none` = the early "no log groups
with filters" return, `ok (some (removed, failed))` = the step 4
counters), the state after the pass, and the mutating backend calls in
order. -/
def reconcileSubscriptionFilters (env : String → DeleteOutcome) (st : SysState) :
    Except Unit (Option (Nat × Nat)) × SysState × List ApiCall :=
  match listPatterns st.params with
  | Except.error _ => (Except.error (), st, [])
  | Except.ok pats =>
    let wf := logGroupsWithFilters st
    if wf.isEmpty then
      (Except.ok none, { st with tracking := none },
        [ApiCall.deleteParameter trackingParamName])
    else
      let toRemove := wf.filter fun g => !matchesAny g pats
      let (fs1, removed, failed, tr) := removeFilters env st.filters toRemove
      if pats.isEmpty then
        (Except.ok (some (removed, failed)),
          { st with filters := fs1, tracking := none },
          tr ++ [ApiCall.deleteParameter trackingParamName])
      else
        (Except.ok (some (removed, failed)),
          { st with filters := fs1, tracking := some (joinComma pats) },
          tr ++ [ApiCall.putParameter trackingParamName (joinComma pats)])

/-! ### `add_subscription_filter` and the `PutParameter` path -/

/-- Scan at the top of `add_subscription_filter` when no prefix
argument is given: the first rule whose pattern matches the group
supplies `get_prefix` (and the loop breaks); reaching an unreadable
record raises; `ok none` means no rule matched and the prefix stays
`None`. -/
def scanRulesForPattern : List (String × RuleVal) → String → Except Unit (Option String)
  | [], _ => Except.ok none
  | (_, v) :: rest, g =>
    match v with
    | RuleVal.rule pat pf =>
      if fnmatch g pat then (getPrefixExpr pf).map some
      else scanRulesForPattern rest g
    | _ => Except.error ()

/-- `add_subscription_filter(log_group_name, prefix)`.  With prefix
`None` and no matching rule, `put_subscription_filter` is called with
`filterPattern=None` and fails client-side parameter validation before
any mutation.  After a successful filter put, a missing tracking
parameter raises (`get_parameter` inside the `try` block, re-raised)
with the filter mutation already applied; otherwise the group name is
appended to the tracking list unless some existing entry glob-matches
it. -/
def addSubscriptionFilter (st : SysState) (g : String) (pfxArg : Option String) :
    Except Unit Unit × SysState × List ApiCall :=
  let pres : Except Unit String :=
    match pfxArg with
    | some p => Except.ok p
    | none =>
      match scanRulesForPattern st.params g with
      | Except.error _ => Except.error ()
      | Except.ok none => Except.error ()
      | Except.ok (some p) => Except.ok p
  match pres with
  | Except.error _ => (Except.error (), st, [])
  | Except.ok p =>
    let st1 := { st with filters := fun x => if x = g then some p else st.filters x }
    match st.tracking with
    | none => (Except.error (), st1, [ApiCall.putSubscriptionFilter g p])
    | some tv =>
      let l := splitComma tv
      let l2 := if l.any (fun x => fnmatch g x) then l else l ++ [g]
      (Except.ok (),
        { st1 with tracking := some (joinComma l2) },
        [ApiCall.putSubscriptionFilter g p,
          ApiCall.putParameter trackingParamName (joinComma l2)])

/-- Accumulator loop behind `lastMatchingPattern`. -/
def lastMatchingGo : List (String × RuleVal) → String → String → Except Unit String
  | [], _, acc => Except.ok acc
  | nv :: rest, g, acc =>
    match nv.2 with
    | RuleVal.rule pat _ => lastMatchingGo rest g (if fnmatch g pat then pat else acc)
    | _ => Except.error ()

/-- Inner scan of `update_subscription_filter_on_existing_log_groups`:
`logGroupToAdd` ends as the pattern of the **last** matching rule
(initialised to the empty string); an unreadable record raises. -/
def lastMatchingPattern (ps : List (String × RuleVal)) (g : String) :
    Except Unit String :=
  lastMatchingGo ps g ""

/-- `get_matching_log_groups`: read the named parameter
(`ParameterNotFound` or an unreadable value raises) and filter the log
groups by its pattern. -/
def getMatchingLogGroups (st : SysState) (paramName : String) :
    Except Unit (List String × String) :=
  match st.params.lookup paramName with
  | none => Except.error ()
  | some v =>
    match v with
    | RuleVal.rule pat _ =>
      Except.ok (st.logGroups.filter (fun g => fnmatch g pat), pat)
    | _ => Except.error ()

/-- Tracking-list update in the body of
`update_subscription_filter_on_existing_log_groups`: append the last
matching pattern to the stored list unless already present (string
equality here), or start a fresh list when the tracking parameter is
absent (the `except` branch). -/
def trackingCandidates : Option String → String → List String
  | some tv, toAdd =>
    if toAdd ∈ splitComma tv then splitComma tv else splitComma tv ++ [toAdd]
  | none, toAdd => [toAdd]

/-- Per-group loop of `update_subscription_filter_on_existing_log_groups`:
rewrite the tracking parameter with the last matching pattern, then call
`add_subscription_filter` with no explicit prefix.  An exception
propagates with the state mutated so far. -/
def updateLoop : List String → SysState → Except Unit Unit × SysState × List ApiCall
  | [], st => (Except.ok (), st, [])
  | g :: rest, st =>
    match lastMatchingPattern st.params g with
    | Except.error _ => (Except.error (), st, [])
    | Except.ok toAdd =>
      match addSubscriptionFilter
          { st with
            tracking := some (joinComma (trackingCandidates st.tracking toAdd)) }
          g none with
      | (Except.error _, st2, tr2) =>
        (Except.error (), st2,
          ApiCall.putParameter trackingParamName
            (joinComma (trackingCandidates st.tracking toAdd)) :: tr2)
      | (Except.ok _, st2, tr2) =>
        match updateLoop rest st2 with
        | (res, st3, tr3) =>
          (res, st3,
            ApiCall.putParameter trackingParamName
              (joinComma (trackingCandidates st.tracking toAdd)) :: (tr2 ++ tr3))

/-- `update_subscription_filter_on_existing_log_groups(parameter_name)`. -/
def updateOnExistingLogGroups (st : SysState) (paramName : String) :
    Except Unit Unit × SysState × List ApiCall :=
  match getMatchingLogGroups st paramName with
  | Except.error _ => (Except.error (), st, [])
  | Except.ok (matched, _) =>
    if matched.isEmpty then (Except.ok (), st, [])
    else updateLoop matched st

/-- The `PutParameter` handling path of `lambda_handler`:
`update_subscription_filter_on_existing_log_groups` followed by
`reconcile_subscription_filters`; an exception from the first step
aborts before the second runs. -/
def putParameterPass (env : String → DeleteOutcome) (st : SysState) (paramName : String) :
    Except Unit Unit × SysState × List ApiCall :=
  match updateOnExistingLogGroups st paramName with
  | (Except.error _, st1, tr1) => (Except.error (), st1, tr1)
  | (Except.ok _, st1, tr1) =>
    match reconcileSubscriptionFilters env st1 with
    | (Except.error _, st2, tr2) => (Except.error (), st2, tr1 ++ tr2)
    | (Except.ok _, st2, tr2) => (Except.ok (), st2, tr1 ++ tr2)

/-- Every rule record parses to a rule whose `prefix` field is not JSON
`null` (so neither pattern extraction nor `get_prefix` can raise). -/
def validParams (ps : List (String × RuleVal)) : Bool :=
  ps.all fun nv =>
    match nv.2 with
    | RuleVal.rule _ PrefixField.null => false
    | RuleVal.rule _ _ => true
    | _ => false

/-! ### Cross-account sync (`update.py`) -/

/-- A JSON value (integers stand in for JSON numbers; the claims never
depend on float formatting). -/
inductive JValue where
  | null
  | boolVal (b : Bool)
  | num (n : Int)
  | str (s : String)
  | arr (xs : List JValue)
  | obj (fields : List (String × JValue))

/-- The raw value of one local parameter as `get_all_local_parameters`
reads it: either it parses as JSON or `json.loads` raises
`JSONDecodeError` and the raw string is kept. -/
inductive SPValue where
  | invalid (raw : String)
  | json (j : JValue)

/-- Remove every occurrence of `pat` from the string, scanning left to
right without overlap (Python `s.replace(pat, "")` for non-empty
`pat`; the code's `SSM_PARAMETER_ROOT` is never empty).  `skip > 0`
means we are inside a matched occurrence with `skip` characters still
to drop. -/
def removeAllGo (pat : List Char) : List Char → Nat → List Char
  | [], _ => []
  | c :: cs, skip =>
    match skip with
    | k + 1 => removeAllGo pat cs k
    | 0 =>
      if pat.isPrefixOf (c :: cs) ∧ 0 < pat.length then
        removeAllGo pat cs (pat.length - 1)
      else c :: removeAllGo pat cs 0

/-- Python `str.strip("/")`: drop `'/'` characters from both ends. -/
def stripSlashes (cs : List Char) : List Char :=
  ((cs.dropWhile fun c => c = '/').reverse.dropWhile fun c => c = '/').reverse

/-- Key normalisation of `get_all_local_parameters`:
`param_name.replace(SSM_PARAMETER_ROOT, "").strip("/")`. -/
def stripKey (root n : String) : String :=
  String.mk (stripSlashes (removeAllGo root.toList n.toList 0))

/-- Python dict insertion order semantics: an existing key keeps its
position and gets the new value, a new key is appended. -/
def dictInsert (d : List (String × JValue)) (k : String) (v : JValue) :
    List (String × JValue) :=
  if d.any fun e => e.1 = k then
    d.map fun e => if e.1 = k then (k, v) else e
  else d ++ [(k, v)]

/-- Value stored for one record: the parsed JSON, or the raw string
(serialised as a JSON string) when `json.loads` failed. -/
def paramDocValue : SPValue → JValue
  | SPValue.json j => j
  | SPValue.invalid raw => JValue.str raw

/-- `get_all_local_parameters`: one dict entry per local rule record,
keyed by the normalised name, holding the parsed JSON value or the raw
string when parsing fails. -/
def getAllLocalParameters (root : String) (ps : List (String × SPValue)) :
    List (String × JValue) :=
  ps.foldl (fun d nv => dictInsert d (stripKey root nv.1) (paramDocValue nv.2)) []

/-- Configuration read by `update.py` at module load:
`OWNING_AWS_ACCOUNT` (unset → `none`), the local account id,
`CENTRAL_SSM_PARAMETER_PREFIX` and `SSM_PARAMETER_ROOT`. -/
structure SyncConfig where
  owningAccount : Option String
  localAccountId : String
  centralParamRoot : String
  root : String

/-- Python truthiness test `if not OWNING_AWS_ACCOUNT` (unset or empty
string is falsy). -/
def owningConfigured (cfg : SyncConfig) : Bool :=
  match cfg.owningAccount with
  | none => false
  | some s => s ≠ ""

/-- A Credential Broker or central-parameter-store call issued by
`sync_parameters_to_central_account`. -/
inductive SyncCall where
  | assumeRole
  | centralPutParameter (n : String) (v : JValue)
  | centralDeleteParameter (n : String)

/-- `delete_parameter` against the central store: removing an absent
name raises `ParameterNotFound`. -/
def centralDeleteParam (store : List (String × JValue)) (name : String) :
    Except Unit (List (String × JValue)) :=
  if store.any fun e => e.1 = name then
    Except.ok (store.filter fun e => e.1 ≠ name)
  else Except.error ()

/-- Central-store upsert (`put_parameter` with `Overwrite=True`). -/
def centralPutParam (store : List (String × JValue)) (name : String) (v : JValue) :
    List (String × JValue) :=
  if store.any fun e => e.1 = name then
    store.map fun e => if e.1 = name then (name, v) else e
  else store ++ [(name, v)]

/-- `sync_parameters_to_central_account()`.  With no central account
configured the sync is a no-op.  Otherwise a cross-account role is
assumed unless the local account is the central one (role assumption is
modelled as succeeding), the consolidated document is written to
`{CENTRAL_SSM_PARAMETER_PREFIX}{LOCAL_ACCOUNT_ID}` when non-empty, and
deleted otherwise with `ParameterNotFound` swallowed.  Returns the
outcome, the central store afterwards, and the broker/central calls in
order. -/
def syncParametersToCentralAccount (cfg : SyncConfig)
    (localParams : List (String × SPValue)) (central : List (String × JValue)) :
    Except Unit Unit × List (String × JValue) × List SyncCall :=
  if owningConfigured cfg then
    let tr0 : List SyncCall :=
      if cfg.owningAccount = some cfg.localAccountId then [] else [SyncCall.assumeRole]
    let doc := getAllLocalParameters cfg.root localParams
    let name := cfg.centralParamRoot ++ cfg.localAccountId
    if doc.isEmpty then
      match centralDeleteParam central name with
      | Except.ok central1 =>
        (Except.ok (), central1, tr0 ++ [SyncCall.centralDeleteParameter name])
      | Except.error _ =>
        (Except.ok (), central, tr0 ++ [SyncCall.centralDeleteParameter name])
    else
      (Except.ok (), centralPutParam central name (JValue.obj doc),
        tr0 ++ [SyncCall.centralPutParameter name (JValue.obj doc)])
  else (Except.ok (), central, [])

/-! ### Auxiliary lemmas -/

theorem lookupMem {α β : Type} [DecidableEq α] :
    ∀ (ps : List (α × β)) (k : α) (v : β), ps.lookup k = some v → (k, v) ∈ ps := by
  intro ps
  induction ps with
  | nil => intro k v h; simp [List.lookup] at h
  | cons hd tl ih =>
    intro k v h
    cases hd with
    | mk a b =>
      rw [List.lookup] at h
      by_cases hk : k = a
      · have hb : (k == a) = true := by simp [hk]
        rw [hb] at h
        simp at h
        subst hk
        subst h
        exact List.mem_cons_self _ _
      · have hb : (k == a) = false := by simp [hk]
        rw [hb] at h
        exact List.mem_cons_of_mem _ (ih k v h)

theorem getPrefixExpr_ok (pf : PrefixField) (h : pf ≠ PrefixField.null) :
    ∃ p, getPrefixExpr pf = Except.ok p := by
  cases pf with
  | absent => exact ⟨"[]", rfl⟩
  | null => exact absurd rfl h
  | strVal s =>
    rw [getPrefixExpr]
    by_cases h1 : s ≠ "" ∧ s ≠ "[]"
    · exact ⟨_, if_pos h1⟩
    · exact ⟨_, if_neg h1⟩

/-- Membership form of `validParams`. -/
theorem validParams_mem {ps : List (String × RuleVal)} (h : validParams ps = true) :
    ∀ nv ∈ ps, ∃ pat pf, nv.2 = RuleVal.rule pat pf ∧ pf ≠ PrefixField.null := by
  intro nv hnv
  have := (List.all_eq_true.mp h) nv hnv
  cases hv : nv.2 with
  | invalid => rw [hv] at this; simp at this
  | missingPattern => rw [hv] at this; simp at this
  | rule pat pf =>
    refine ⟨pat, pf, rfl, ?_⟩
    intro hn
    rw [hv, hn] at this
    simp at this

theorem validParams_of_cons {nv : String × RuleVal} {ps : List (String × RuleVal)}
    (h : validParams (nv :: ps) = true) : validParams ps = true := by
  rw [validParams] at h
  simp only [List.all_cons, Bool.and_eq_true] at h
  exact h.2

/-- Under `validParams`, step 1 of the reconcile pass cannot raise. -/
theorem listPatterns_ok {ps : List (String × RuleVal)} (h : validParams ps = true) :
    ∃ pats, listPatterns ps = Except.ok pats := by
  induction ps with
  | nil => exact ⟨[], rfl⟩
  | cons nv tl ih =>
    obtain ⟨pat, pf, hrule, -⟩ := validParams_mem h nv (List.mem_cons_self nv tl)
    obtain ⟨pats, hpats⟩ := ih (validParams_of_cons h)
    refine ⟨pat :: pats, ?_⟩
    rw [listPatterns, hrule, patternOf, hpats]

/-- A rule record contributes its pattern to the pattern list. -/
theorem listPatterns_mem {ps : List (String × RuleVal)} {pats : List String}
    (hp : listPatterns ps = Except.ok pats) :
    ∀ k pat pf, (k, RuleVal.rule pat pf) ∈ ps → pat ∈ pats := by
  induction ps generalizing pats with
  | nil =>
    intro k pat pf hmem
    simp at hmem
  | cons nv tl ih =>
    intro k pat pf hmem
    rw [listPatterns] at hp
    cases hhd : patternOf nv.2 with
    | error e => rw [hhd] at hp; simp at hp
    | ok p0 =>
      rw [hhd] at hp
      cases htl : listPatterns tl with
      | error e => rw [htl] at hp; simp at hp
      | ok ptl =>
        rw [htl] at hp
        simp at hp
        rcases List.mem_cons.mp hmem with heq | hmem'
        · have hv : nv.2 = RuleVal.rule pat pf := by rw [← heq]
          rw [hv, patternOf] at hhd
          have hp0 : p0 = pat := (Except.ok.inj hhd).symm
          rw [← hp, hp0]
          exact List.mem_cons_self pat ptl
        · have := ih htl k pat pf hmem'
          rw [← hp]
          exact List.mem_cons_of_mem p0 this

/-! ### C2 — the prefix-to-filter-expression mapping -/

/-- C2 counterexample: the claim says an empty-string `prefix` yields
the sentinel `"[]"`, but `get_prefix` returns the empty string
unchanged (the wrapping guard skips `""` without re-applying the
sentinel default). -/
theorem getPrefixExpr_empty_cex :
    getPrefixExpr (PrefixField.strVal "") = Except.ok "" ∧
    getPrefixExpr (PrefixField.strVal "") ≠ Except.ok "[]" := by
  constructor
  · rfl
  · decide

/-- C2 amended: an absent `prefix` field or the literal `"[]"` yields
`"[]"`; an empty string is returned unchanged as `""`; a JSON `null`
raises `TypeError`; any other non-empty string `p ≠ "[]"` yields
`"%^" ++ p ++ "*%"`. -/
theorem getPrefixExpr_spec :
    getPrefixExpr PrefixField.absent = Except.ok "[]" ∧
    getPrefixExpr (PrefixField.strVal "") = Except.ok "" ∧
    getPrefixExpr (PrefixField.strVal "[]") = Except.ok "[]" ∧
    getPrefixExpr PrefixField.null = Except.error () ∧
    ∀ s, s ≠ "" → s ≠ "[]" →
      getPrefixExpr (PrefixField.strVal s) = Except.ok ("%^" ++ s ++ "*%") := by
  refine ⟨rfl, rfl, rfl, rfl, ?_⟩
  intro s h1 h2
  rw [getPrefixExpr, if_pos ⟨h1, h2⟩]

/-- C2 witness: the amended mapping at the concrete prefix `"ERROR"`. -/
theorem getPrefixExpr_spec_witness :
    ("ERROR" ≠ "" ∧ "ERROR" ≠ "[]") ∧
    getPrefixExpr (PrefixField.strVal "ERROR") = Except.ok ("%^" ++ "ERROR" ++ "*%") :=
  ⟨⟨by decide, by decide⟩, getPrefixExpr_spec.2.2.2.2 "ERROR" (by decide) (by decide)⟩

/-! ### C4 — unreadable rule list aborts the pass -/

/-- C4: when reading the rule list fails (store listing failure, a
record that is not valid JSON, or a record without the pattern field —
all the cases where `listPatterns` raises), the whole reconciliation
pass propagates the error, deletes no filter and mutates no store
record: the state is unchanged and the call trace is empty. -/
theorem reconcile_abortsOnUnreadableRules (env : String → DeleteOutcome)
    (st : SysState) (h : listPatterns st.params = Except.error ()) :
    reconcileSubscriptionFilters env st = (Except.error (), st, []) := by
  rw [reconcileSubscriptionFilters, h]

/-- C4 witness: a store with one record whose value is not valid JSON. -/
theorem reconcile_abortsOnUnreadableRules_witness :
    listPatterns [("/cpl/bad", RuleVal.invalid)] = Except.error () ∧
    reconcileSubscriptionFilters (fun _ => DeleteOutcome.ok)
        { params := [("/cpl/bad", RuleVal.invalid)], tracking := some "t",
          logGroups := ["/g"], filters := fun _ => none }
      = (Except.error (),
         { params := [("/cpl/bad", RuleVal.invalid)], tracking := some "t",
           logGroups := ["/g"], filters := fun _ => none }, []) :=
  ⟨by decide, reconcile_abortsOnUnreadableRules _ _ (by decide)⟩

/-! ### Literal names under glob matching -/

/-- A log group name containing no glob metacharacter. -/
def isLiteralName (s : String) : Bool :=
  s.toList.all fun c => c ≠ '*' ∧ c ≠ '?' ∧ c ≠ '['

theorem parseGlob_literal :
    ∀ cs : List Char, (∀ c ∈ cs, c ≠ '*' ∧ c ≠ '?' ∧ c ≠ '[') →
      parseGlob cs = cs.map GlobTok.lit := by
  intro cs
  induction cs with
  | nil => intro _; rfl
  | cons c tl ih =>
    intro h
    obtain ⟨h1, h2, h3⟩ := h c (List.mem_cons_self c tl)
    have htl := ih fun x hx => h x (List.mem_cons_of_mem c hx)
    show parseGlobAux (tl.length + 1) (c :: tl) = _
    rw [parseGlobAux]
    simp only [if_neg h1, if_neg h2, if_neg h3, List.map_cons]
    rw [← htl]
    rfl

theorem tokMatch_lit_self : ∀ cs : List Char, tokMatch (cs.map GlobTok.lit) cs = true := by
  intro cs
  induction cs with
  | nil => rfl
  | cons c tl ih => simp [tokMatch, ih]

/-- A name with no glob metacharacters matches itself under `fnmatch`. -/
theorem fnmatch_self {s : String} (h : isLiteralName s = true) : fnmatch s s = true := by
  rw [fnmatch, parseGlob_literal]
  · exact tokMatch_lit_self s.toList
  · intro c hc
    have := (List.all_eq_true.mp h) c hc
    simpa using this

/-! ### C9 — sync is a no-op without a central account -/

/-- C9: with `OWNING_AWS_ACCOUNT` unset or empty, a sync call performs
zero Credential Broker calls and zero central-store calls, returns
without error and leaves the central store unchanged (it also touches
no local state: the function only returns). -/
theorem sync_noopWithoutCentralAccount (cfg : SyncConfig)
    (ps : List (String × SPValue)) (central : List (String × JValue))
    (h : cfg.owningAccount = none ∨ cfg.owningAccount = some "") :
    syncParametersToCentralAccount cfg ps central = (Except.ok (), central, []) := by
  have hc : owningConfigured cfg = false := by
    rw [owningConfigured]
    rcases h with h | h <;> rw [h] <;> simp
  rw [syncParametersToCentralAccount]
  simp [hc]

/-- C9 witness: a concrete unconfigured deployment with local rules and
a populated central store. -/
theorem sync_noopWithoutCentralAccount_witness :
    ((none : Option String) = none ∨ (none : Option String) = some "") ∧
    syncParametersToCentralAccount
        { owningAccount := none, localAccountId := "111",
          centralParamRoot := "/accounts_cpl/", root := "/cpl/" }
        [("/cpl/x", SPValue.invalid "raw")]
        [("/accounts_cpl/222", JValue.null)]
      = (Except.ok (), [("/accounts_cpl/222", JValue.null)], []) :=
  ⟨Or.inl rfl, sync_noopWithoutCentralAccount _ _ _ (Or.inl rfl)⟩

/-! ### C8 — empty rule set deletes the central document -/

/-- C8: with a central account configured and an empty local rule set,
the sync issues a delete of the central consolidated document instead
of a write, and a `ParameterNotFound` outcome on that delete is treated
as success: the sync returns ok with the central store unchanged. -/
theorem sync_emptyRules_spec (cfg : SyncConfig) (central : List (String × JValue))
    (h : owningConfigured cfg = true) :
    (syncParametersToCentralAccount cfg [] central).1 = Except.ok () ∧
    (syncParametersToCentralAccount cfg [] central).2.2 =
      (if cfg.owningAccount = some cfg.localAccountId then ([] : List SyncCall)
       else [SyncCall.assumeRole]) ++
      [SyncCall.centralDeleteParameter (cfg.centralParamRoot ++ cfg.localAccountId)] ∧
    (centralDeleteParam central (cfg.centralParamRoot ++ cfg.localAccountId) =
        Except.error () →
      (syncParametersToCentralAccount cfg [] central).2.1 = central) := by
  rw [syncParametersToCentralAccount]
  simp only [h, if_true]
  cases hdel : centralDeleteParam central (cfg.centralParamRoot ++ cfg.localAccountId) with
  | error e =>
    refine ⟨?_, ?_, ?_⟩ <;>
      simp [getAllLocalParameters, hdel]
  | ok central1 =>
    refine ⟨?_, ?_, ?_⟩
    · simp [getAllLocalParameters, hdel]
    · simp [getAllLocalParameters, hdel]
    · intro hcon
      simp at hcon

/-- C8 witness: central account `999`, local `111`, no local rules, and
an already-absent central document: the delete raises
`ParameterNotFound`, the sync swallows it and returns ok. -/
theorem sync_emptyRules_spec_witness :
    owningConfigured
        { owningAccount := some "999", localAccountId := "111",
          centralParamRoot := "/accounts_cpl/", root := "/cpl/" } = true ∧
    centralDeleteParam [] ("/accounts_cpl/" ++ "111") = Except.error () ∧
    (syncParametersToCentralAccount
        { owningAccount := some "999", localAccountId := "111",
          centralParamRoot := "/accounts_cpl/", root := "/cpl/" } [] []).1
      = Except.ok () ∧
    (syncParametersToCentralAccount
        { owningAccount := some "999", localAccountId := "111",
          centralParamRoot := "/accounts_cpl/", root := "/cpl/" } [] []).2.1 = [] :=
  ⟨rfl, rfl,
    (sync_emptyRules_spec
      { owningAccount := some "999", localAccountId := "111",
        centralParamRoot := "/accounts_cpl/", root := "/cpl/" } [] rfl).1,
    (sync_emptyRules_spec
      { owningAccount := some "999", localAccountId := "111",
        centralParamRoot := "/accounts_cpl/", root := "/cpl/" } [] rfl).2.2 rfl⟩

/-! ### C10 — tracking-record append guarded by glob match -/

/-- C10 fails as stated: a successful `add_subscription_filter` call
**can** append a duplicate tracking entry.  The dedup guard is
`fnmatch`, and the name `"[a]"` does not glob-match itself (the pattern
`[a]` only matches `"a"`), so with tracking `"[a]"` the same name is
appended again. -/
theorem addSubscriptionFilter_duplicate_cex :
    (addSubscriptionFilter
        { params := [], tracking := some "[a]", logGroups := ["[a]"],
          filters := fun _ => none } "[a]" (some "[]")).1 = Except.ok () ∧
    (addSubscriptionFilter
        { params := [], tracking := some "[a]", logGroups := ["[a]"],
          filters := fun _ => none } "[a]" (some "[]")).2.1.tracking
      = some "[a],[a]" ∧
    splitComma "[a],[a]" = ["[a]", "[a]"] :=
  ⟨rfl, rfl, rfl⟩

/-- C10 amended: on a successful `add_subscription_filter(g)`, the
managed filter is present on `g` and `g` is appended to the tracking
record exactly when no existing entry glob-matches `g` under `fnmatch`
(so a group matching an existing entry-as-glob is silently omitted
despite its filter being created).  For names free of glob
metacharacters this means no duplicate is ever appended; a name with
metacharacters that fails to self-match can be duplicated. -/
theorem addSubscriptionFilter_tracking_spec (st : SysState) (g tv : String)
    (pfxArg : Option String)
    (hok : (addSubscriptionFilter st g pfxArg).1 = Except.ok ())
    (htv : st.tracking = some tv) :
    ((addSubscriptionFilter st g pfxArg).2.1.filters g).isSome = true ∧
    (addSubscriptionFilter st g pfxArg).2.1.tracking =
      some (joinComma (if (splitComma tv).any (fun x => fnmatch g x)
                       then splitComma tv else splitComma tv ++ [g])) ∧
    ((splitComma tv).any (fun x => fnmatch g x) = true →
      (addSubscriptionFilter st g pfxArg).2.1.tracking =
        some (joinComma (splitComma tv))) ∧
    (isLiteralName g = true → g ∈ splitComma tv →
      (addSubscriptionFilter st g pfxArg).2.1.tracking =
        some (joinComma (splitComma tv))) := by
  unfold addSubscriptionFilter at hok ⊢
  rw [htv] at hok ⊢
  split at hok
  · exact ⟨by simp, by simp,
      fun hany => by simp [hany],
      fun hlit hmem => by
        have hany : (splitComma tv).any (fun x => fnmatch g x) = true :=
          List.any_eq_true.mpr ⟨g, hmem, fnmatch_self hlit⟩
        simp [hany]⟩
  · split at hok
    · exact absurd hok (by simp)
    · exact absurd hok (by simp)
    · exact ⟨by simp, by simp,
        fun hany => by simp [hany],
        fun hlit hmem => by
          have hany : (splitComma tv).any (fun x => fnmatch g x) = true :=
            List.any_eq_true.mpr ⟨g, hmem, fnmatch_self hlit⟩
          simp [hany]⟩

theorem isEmpty_false_of_ne_nil {α : Type} {l : List α} (h : l ≠ []) :
    l.isEmpty = false := by
  cases l with
  | nil => exact absurd rfl h
  | cons a t => rfl

/-! ### C6 — tracking-record rewrite at the end of a pass -/

/-- C6 fails as stated: a pass over a store with one rule but no
filtered log group completes successfully with a non-empty pattern
list, yet the early "nothing to clean up" return **deletes** the
tracking record instead of rewriting it to the pattern list. -/
theorem reconcile_tracking_cex :
    listPatterns [("/cpl/r1", RuleVal.rule "/a/*" PrefixField.absent)]
      = Except.ok ["/a/*"] ∧
    (reconcileSubscriptionFilters (fun _ => DeleteOutcome.ok)
        { params := [("/cpl/r1", RuleVal.rule "/a/*" PrefixField.absent)],
          tracking := some "old", logGroups := [], filters := fun _ => none }).1
      = Except.ok none ∧
    (reconcileSubscriptionFilters (fun _ => DeleteOutcome.ok)
        { params := [("/cpl/r1", RuleVal.rule "/a/*" PrefixField.absent)],
          tracking := some "old", logGroups := [], filters := fun _ => none }).2.1.tracking
      = none :=
  ⟨rfl, rfl, rfl⟩

/-- C6 amended: a pass whose rule list is readable never raises, and it
rewrites the tracking record to the comma-joined pattern list exactly
when the pattern list is non-empty **and** at least one log group still
carries the managed filter; otherwise (empty pattern list, or no
filtered log group — the early-return branch) the tracking record is
deleted, with absence tolerated. -/
theorem reconcile_tracking_spec (env : String → DeleteOutcome) (st : SysState)
    (pats : List String) (hp : listPatterns st.params = Except.ok pats) :
    (reconcileSubscriptionFilters env st).1 ≠ Except.error () ∧
    (reconcileSubscriptionFilters env st).2.1.tracking =
      (if logGroupsWithFilters st ≠ [] ∧ pats ≠ [] then some (joinComma pats)
       else none) := by
  rw [reconcileSubscriptionFilters, hp]
  by_cases hwf : logGroupsWithFilters st = []
  · constructor
    · simp [hwf]
    · simp [hwf]
  · have hwfE : (logGroupsWithFilters st).isEmpty = false := isEmpty_false_of_ne_nil hwf
    rcases hX : removeFilters env st.filters
        ((logGroupsWithFilters st).filter fun g => !matchesAny g pats) with ⟨fs1, r, f, tr⟩
    by_cases hpat : pats = []
    · subst hpat
      constructor
      · simp [hwfE, hX]
      · simp [hwfE, hX]
    · have hpatE : pats.isEmpty = false := isEmpty_false_of_ne_nil hpat
      constructor
      · simp [hwfE, hX, hpatE]
      · simp [hwfE, hX, hpatE, hwf, hpat]

/-- C6 witness: one rule and one log group carrying the filter — the
pass completes and rewrites the tracking record to the pattern list. -/
theorem reconcile_tracking_spec_witness :
    listPatterns [("/cpl/r1", RuleVal.rule "/a/*" PrefixField.absent)]
      = Except.ok ["/a/*"] ∧
    (reconcileSubscriptionFilters (fun _ => DeleteOutcome.ok)
        { params := [("/cpl/r1", RuleVal.rule "/a/*" PrefixField.absent)],
          tracking := none, logGroups := ["/a/x"],
          filters := fun g => if g = "/a/x" then some "[]" else none }).2.1.tracking
      = (if logGroupsWithFilters
              { params := [("/cpl/r1", RuleVal.rule "/a/*" PrefixField.absent)],
                tracking := none, logGroups := ["/a/x"],
                filters := fun g => if g = "/a/x" then some "[]" else none } ≠ [] ∧
            (["/a/*"] : List String) ≠ []
         then some (joinComma ["/a/*"]) else none) :=
  ⟨rfl,
    (reconcile_tracking_spec (fun _ => DeleteOutcome.ok)
      { params := [("/cpl/r1", RuleVal.rule "/a/*" PrefixField.absent)],
        tracking := none, logGroups := ["/a/x"],
        filters := fun g => if g = "/a/x" then some "[]" else none }
      ["/a/*"] rfl).2⟩

/-! ### C5 — partial-failure isolation in the removal step -/

theorem removeFilters_spec (env : String → DeleteOutcome) :
    ∀ (l : List String) (fs : String → Option String),
      (removeFilters env fs l).2.2.2 = l.map ApiCall.deleteSubscriptionFilter ∧
      (removeFilters env fs l).2.1 =
        l.countP (fun g => !decide (env g = DeleteOutcome.err)) ∧
      (removeFilters env fs l).2.2.1 =
        l.countP (fun g => decide (env g = DeleteOutcome.err)) := by
  intro l
  induction l with
  | nil => intro fs; exact ⟨rfl, rfl, rfl⟩
  | cons g rest ih =>
    intro fs
    rw [removeFilters]
    cases he : env g with
    | err =>
      obtain ⟨h1, h2, h3⟩ := ih fs
      rcases hrec : removeFilters env fs rest with ⟨fs1, r, f, tr⟩
      rw [hrec] at h1 h2 h3
      simp only at h1 h2 h3
      simp [List.countP_cons, he, h1, h2, h3]
    | ok =>
      obtain ⟨h1, h2, h3⟩ := ih (fun x => if x = g then none else fs x)
      rcases hrec : removeFilters env (fun x => if x = g then none else fs x) rest
        with ⟨fs1, r, f, tr⟩
      rw [hrec] at h1 h2 h3
      simp only at h1 h2 h3
      simp [List.countP_cons, he, h1, h2, h3]
    | notFound =>
      obtain ⟨h1, h2, h3⟩ := ih (fun x => if x = g then none else fs x)
      rcases hrec : removeFilters env (fun x => if x = g then none else fs x) rest
        with ⟨fs1, r, f, tr⟩
      rw [hrec] at h1 h2 h3
      simp only at h1 h2 h3
      simp [List.countP_cons, he, h1, h2, h3]

theorem countP_add_countP_not (p : String → Bool) :
    ∀ l : List String, l.countP p + l.countP (fun g => !p g) = l.length := by
  intro l
  induction l with
  | nil => rfl
  | cons a t ih =>
    simp only [List.countP_cons, List.length_cons]
    cases hp : p a <;> simp [hp] <;> omega

/-- C5: with the rule list readable and some log group carrying a
filter, if exactly one group marked for removal fails its deletion with
a generic backend error, the pass still issues
`delete_subscription_filter` for **every** marked group, reports
exactly one failure, and counts all other deletions (successes and
not-found outcomes alike) as removed: the summary is
`(marked − 1, 1)`, not an abort and not zero successes. -/
theorem reconcile_partialFailure_spec (env : String → DeleteOutcome) (st : SysState)
    (pats : List String) (hp : listPatterns st.params = Except.ok pats)
    (hwf : logGroupsWithFilters st ≠ [])
    (hone : ((logGroupsWithFilters st).filter fun g => !matchesAny g pats).countP
        (fun g => decide (env g = DeleteOutcome.err)) = 1) :
    (reconcileSubscriptionFilters env st).1 =
      Except.ok (some
        ((((logGroupsWithFilters st).filter fun g => !matchesAny g pats).length - 1, 1))) ∧
    ∀ g ∈ (logGroupsWithFilters st).filter fun g => !matchesAny g pats,
      ApiCall.deleteSubscriptionFilter g ∈ (reconcileSubscriptionFilters env st).2.2 := by
  have hwfE : (logGroupsWithFilters st).isEmpty = false := isEmpty_false_of_ne_nil hwf
  obtain ⟨htr, hrem, hfail⟩ := removeFilters_spec env
    ((logGroupsWithFilters st).filter fun g => !matchesAny g pats) st.filters
  have hsum := countP_add_countP_not (fun g => decide (env g = DeleteOutcome.err))
    ((logGroupsWithFilters st).filter fun g => !matchesAny g pats)
  rw [reconcileSubscriptionFilters, hp]
  rcases hX : removeFilters env st.filters
      ((logGroupsWithFilters st).filter fun g => !matchesAny g pats) with ⟨fs1, r, f, tr⟩
  rw [hX] at htr hrem hfail
  simp only at htr hrem hfail
  have hf1 : f = 1 := by rw [hfail]; exact hone
  have hr1 : r = (((logGroupsWithFilters st).filter fun g => !matchesAny g pats).length - 1) := by
    rw [hrem]
    omega
  constructor
  · by_cases hpa : pats.isEmpty <;> simp [hwfE, hX, hpa, hf1, hr1]
  · intro g hg
    have hmem : ApiCall.deleteSubscriptionFilter g ∈ tr := by
      rw [htr]
      exact List.mem_map_of_mem _ hg
    by_cases hpa : pats.isEmpty <;> simp [hwfE, hX, hpa, hmem]

/-- C5 witness: three filtered groups, two marked for removal, the
deletion on `/b/y` fails generically while `/b/x` is still deleted:
summary `(1, 1)` and both removals attempted. -/
theorem reconcile_partialFailure_spec_witness :
    listPatterns [("/cpl/r", RuleVal.rule "/keep/*" PrefixField.absent)]
      = Except.ok ["/keep/*"] ∧
    (reconcileSubscriptionFilters
        (fun g => if g = "/b/y" then DeleteOutcome.err else DeleteOutcome.ok)
        { params := [("/cpl/r", RuleVal.rule "/keep/*" PrefixField.absent)],
          tracking := some "t", logGroups := ["/b/x", "/b/y", "/keep/z"],
          filters := fun _ => some "[]" }).1
      = Except.ok (some
          ((((logGroupsWithFilters
                { params := [("/cpl/r", RuleVal.rule "/keep/*" PrefixField.absent)],
                  tracking := some "t", logGroups := ["/b/x", "/b/y", "/keep/z"],
                  filters := fun _ => some "[]" }).filter
              fun g => !matchesAny g ["/keep/*"]).length - 1, 1))) :=
  ⟨rfl,
    (reconcile_partialFailure_spec
      (fun g => if g = "/b/y" then DeleteOutcome.err else DeleteOutcome.ok)
      { params := [("/cpl/r", RuleVal.rule "/keep/*" PrefixField.absent)],
        tracking := some "t", logGroups := ["/b/x", "/b/y", "/keep/z"],
        filters := fun _ => some "[]" }
      ["/keep/*"] rfl (by decide) (by decide)).1⟩

/-- C10 witness: adding a literal-named group not yet tracked appends
exactly one entry. -/
theorem addSubscriptionFilter_tracking_spec_witness :
    (addSubscriptionFilter
        { params := [], tracking := some "/x", logGroups := ["/g/new"],
          filters := fun _ => none } "/g/new" (some "[]")).1 = Except.ok () ∧
    (addSubscriptionFilter
        { params := [], tracking := some "/x", logGroups := ["/g/new"],
          filters := fun _ => none } "/g/new" (some "[]")).2.1.tracking =
      some (joinComma (if (splitComma "/x").any (fun x => fnmatch "/g/new" x)
                       then splitComma "/x" else splitComma "/x" ++ ["/g/new"])) :=
  ⟨rfl,
    (addSubscriptionFilter_tracking_spec
      { params := [], tracking := some "/x", logGroups := ["/g/new"],
        filters := fun _ => none } "/g/new" "/x" (some "[]") rfl rfl).2.1⟩

/-! ### A no-failure characterisation of the reconcile pass -/

theorem removeFilters_filters (env : String → DeleteOutcome)
    (henv : ∀ g, env g ≠ DeleteOutcome.err) :
    ∀ (l : List String) (fs : String → Option String) (g : String),
      (removeFilters env fs l).1 g = if g ∈ l then none else fs g := by
  intro l
  induction l with
  | nil => intro fs g; simp [removeFilters]
  | cons a rest ih =>
    intro fs g
    rw [removeFilters]
    cases he : env a with
    | err => exact absurd he (henv a)
    | ok =>
      rcases hrec : removeFilters env (fun x => if x = a then none else fs x) rest
        with ⟨fs1, r, f, tr⟩
      have hthis := ih (fun x => if x = a then none else fs x) g
      rw [hrec] at hthis
      simp only at hthis
      simp only [hrec]
      rw [hthis]
      by_cases hg : g ∈ rest
      · simp [hg]
      · by_cases hga : g = a
        · simp [hg, hga]
        · simp [hg, hga]
    | notFound =>
      rcases hrec : removeFilters env (fun x => if x = a then none else fs x) rest
        with ⟨fs1, r, f, tr⟩
      have hthis := ih (fun x => if x = a then none else fs x) g
      rw [hrec] at hthis
      simp only at hthis
      simp only [hrec]
      rw [hthis]
      by_cases hg : g ∈ rest
      · simp [hg]
      · by_cases hga : g = a
        · simp [hg, hga]
        · simp [hg, hga]

/-- With a readable rule list and no generic deletion failures, one
reconcile pass: succeeds; keeps `params` and `logGroups`; deletes the
managed filter exactly on the filtered groups matching no pattern;
rewrites the tracking record as in `reconcile_tracking_spec`; and
issues exactly the corresponding backend calls. -/
theorem reconcile_noerr_spec (env : String → DeleteOutcome) (st : SysState)
    (pats : List String) (hp : listPatterns st.params = Except.ok pats)
    (henv : ∀ g, env g ≠ DeleteOutcome.err) :
    (reconcileSubscriptionFilters env st).1 ≠ Except.error () ∧
    (reconcileSubscriptionFilters env st).2.1.params = st.params ∧
    (reconcileSubscriptionFilters env st).2.1.logGroups = st.logGroups ∧
    (reconcileSubscriptionFilters env st).2.1.tracking =
      (if logGroupsWithFilters st ≠ [] ∧ pats ≠ [] then some (joinComma pats)
       else none) ∧
    (∀ g, (reconcileSubscriptionFilters env st).2.1.filters g =
       if g ∈ logGroupsWithFilters st ∧ matchesAny g pats = false then none
       else st.filters g) ∧
    (reconcileSubscriptionFilters env st).2.2 =
      (if logGroupsWithFilters st = [] then [ApiCall.deleteParameter trackingParamName]
       else ((logGroupsWithFilters st).filter fun g => !matchesAny g pats).map
              ApiCall.deleteSubscriptionFilter ++
            (if pats = [] then [ApiCall.deleteParameter trackingParamName]
             else [ApiCall.putParameter trackingParamName (joinComma pats)])) := by
  rw [reconcileSubscriptionFilters, hp]
  by_cases hwf : logGroupsWithFilters st = []
  · refine ⟨by simp [hwf], by simp [hwf], by simp [hwf], by simp [hwf], ?_, by simp [hwf]⟩
    intro g
    have : g ∉ logGroupsWithFilters st := by rw [hwf]; simp
    simp [hwf, this]
  · have hwfE : (logGroupsWithFilters st).isEmpty = false := isEmpty_false_of_ne_nil hwf
    rcases hX : removeFilters env st.filters
        ((logGroupsWithFilters st).filter fun g => !matchesAny g pats) with ⟨fs1, r, f, tr⟩
    obtain ⟨htr, -, -⟩ := removeFilters_spec env
      ((logGroupsWithFilters st).filter fun g => !matchesAny g pats) st.filters
    rw [hX] at htr
    simp only at htr
    have hfil : ∀ g, fs1 g =
        if g ∈ logGroupsWithFilters st ∧ matchesAny g pats = false then none
        else st.filters g := by
      intro g
      have h1 := removeFilters_filters env henv
        ((logGroupsWithFilters st).filter fun g => !matchesAny g pats) st.filters g
      rw [hX] at h1
      simp only at h1
      rw [h1]
      by_cases hmem : g ∈ (logGroupsWithFilters st).filter fun g => !matchesAny g pats
      · have hmf := List.mem_filter.mp hmem
        have hcond : g ∈ logGroupsWithFilters st ∧ matchesAny g pats = false := by
          refine ⟨hmf.1, ?_⟩
          simpa using hmf.2
        simp [hmem, hcond]
      · rw [if_neg hmem]
        by_cases hc : g ∈ logGroupsWithFilters st ∧ matchesAny g pats = false
        · exfalso
          exact hmem (List.mem_filter.mpr ⟨hc.1, by simp [hc.2]⟩)
        · rw [if_neg hc]
    by_cases hpat : pats = []
    · subst hpat
      refine ⟨by simp [hwfE, hX], by simp [hwfE, hX], by simp [hwfE, hX], ?_, ?_, ?_⟩
      · simp [hwfE, hX, hwf]
      · intro g
        have := hfil g
        simp only [hwfE, hX]
        simpa using this
      · simp [hwfE, hX, hwf, htr]
    · have hpatE : pats.isEmpty = false := isEmpty_false_of_ne_nil hpat
      refine ⟨by simp [hwfE, hX, hpatE], by simp [hwfE, hX, hpatE],
        by simp [hwfE, hX, hpatE], ?_, ?_, ?_⟩
      · simp [hwfE, hX, hpatE, hwf, hpat]
      · intro g
        have := hfil g
        simp only [hwfE, hX, hpatE]
        simpa using this
      · simp [hwfE, hX, hpatE, hwf, hpat, htr]

/-! ### C3 — second-pass behaviour -/

/-- C3 fails as stated: with one rule and one matching filtered log
group (state already converged), the second of two identical passes
still issues a `put_parameter` call rewriting the tracking record — not
zero mutating backend calls. -/
theorem reconcile_secondRun_cex :
    (reconcileSubscriptionFilters (fun _ => DeleteOutcome.ok)
        (reconcileSubscriptionFilters (fun _ => DeleteOutcome.ok)
          { params := [("/cpl/r1", RuleVal.rule "/a/*" PrefixField.absent)],
            tracking := some "x", logGroups := ["/a/x"],
            filters := fun g => if g = "/a/x" then some "[]" else none }).2.1).2.2
      = [ApiCall.putParameter trackingParamName "/a/*"] := rfl

/-- C3 amended: a second identical pass (readable rules, no deletion
failures, no intervening changes) issues **no** `put_subscription_filter`
and **no** `delete_subscription_filter` call and leaves every log
group's filter unchanged, but it still issues exactly one
parameter-store write: `put_parameter` rewriting the tracking record
(or a `delete_parameter` attempt when the pattern list is empty or no
filtered group remains). -/
theorem reconcile_secondRun_spec (env : String → DeleteOutcome) (st : SysState)
    (pats : List String) (hp : listPatterns st.params = Except.ok pats)
    (henv : ∀ g, env g ≠ DeleteOutcome.err) :
    (∀ g, (reconcileSubscriptionFilters env
        (reconcileSubscriptionFilters env st).2.1).2.1.filters g =
      (reconcileSubscriptionFilters env st).2.1.filters g) ∧
    ((reconcileSubscriptionFilters env (reconcileSubscriptionFilters env st).2.1).2.2
        = [ApiCall.deleteParameter trackingParamName] ∨
     (reconcileSubscriptionFilters env (reconcileSubscriptionFilters env st).2.1).2.2
        = [ApiCall.putParameter trackingParamName (joinComma pats)]) ∧
    (∀ g p, ApiCall.putSubscriptionFilter g p ∉
        (reconcileSubscriptionFilters env (reconcileSubscriptionFilters env st).2.1).2.2) ∧
    (∀ g, ApiCall.deleteSubscriptionFilter g ∉
        (reconcileSubscriptionFilters env (reconcileSubscriptionFilters env st).2.1).2.2) := by
  obtain ⟨-, hparams1, hlogs1, -, hfil1, -⟩ := reconcile_noerr_spec env st pats hp henv
  set st1 := (reconcileSubscriptionFilters env st).2.1 with hst1
  have hp1 : listPatterns st1.params = Except.ok pats := by rw [hparams1, hp]
  have hmatch1 : ∀ g ∈ logGroupsWithFilters st1, matchesAny g pats = true := by
    intro g hg
    have hmem := List.mem_filter.mp hg
    have hfg := hfil1 g
    by_cases hc : g ∈ logGroupsWithFilters st ∧ matchesAny g pats = false
    · rw [if_pos hc] at hfg
      rw [hfg] at hmem
      simp at hmem
    · rw [if_neg hc] at hfg
      by_cases hmm : matchesAny g pats = true
      · exact hmm
      · exfalso
        apply hc
        refine ⟨?_, by simpa using hmm⟩
        apply List.mem_filter.mpr
        refine ⟨?_, ?_⟩
        · rw [← hlogs1]; exact hmem.1
        · rw [← hfg]; exact hmem.2
  have hrem1 : ((logGroupsWithFilters st1).filter fun g => !matchesAny g pats) = [] := by
    apply List.filter_eq_nil.mpr
    intro g hg
    simp [hmatch1 g hg]
  obtain ⟨-, -, -, -, hfil2, htr2⟩ := reconcile_noerr_spec env st1 pats hp1 henv
  refine ⟨?_, ?_, ?_, ?_⟩
  · intro g
    have := hfil2 g
    by_cases hc : g ∈ logGroupsWithFilters st1 ∧ matchesAny g pats = false
    · exfalso
      have := hmatch1 g hc.1
      rw [this] at hc
      simp at hc
    · rw [if_neg hc] at this
      exact this
  · rw [htr2, hrem1]
    by_cases hwf1 : logGroupsWithFilters st1 = []
    · left; simp [hwf1]
    · by_cases hpat : pats = []
      · left; simp [hwf1, hpat]
      · right; simp [hwf1, hpat]
  · intro g p
    rw [htr2, hrem1]
    by_cases hwf1 : logGroupsWithFilters st1 = [] <;>
      by_cases hpat : pats = [] <;> simp [hwf1, hpat]
  · intro g
    rw [htr2, hrem1]
    by_cases hwf1 : logGroupsWithFilters st1 = [] <;>
      by_cases hpat : pats = [] <;> simp [hwf1, hpat]

/-- C3 witness: one rule matching the single filtered log group — the
second pass leaves the filter untouched and only rewrites tracking. -/
theorem reconcile_secondRun_spec_witness :
    listPatterns [("/cpl/r1", RuleVal.rule "/a/*" PrefixField.absent)]
      = Except.ok ["/a/*"] ∧
    (∀ g : String, (fun _ => DeleteOutcome.ok : String → DeleteOutcome) g
        ≠ DeleteOutcome.err) ∧
    ((reconcileSubscriptionFilters (fun _ => DeleteOutcome.ok)
        (reconcileSubscriptionFilters (fun _ => DeleteOutcome.ok)
          { params := [("/cpl/r1", RuleVal.rule "/a/*" PrefixField.absent)],
            tracking := some "x", logGroups := ["/a/x"],
            filters := fun g => if g = "/a/x" then some "[]" else none }).2.1).2.2
        = [ApiCall.deleteParameter trackingParamName] ∨
     (reconcileSubscriptionFilters (fun _ => DeleteOutcome.ok)
        (reconcileSubscriptionFilters (fun _ => DeleteOutcome.ok)
          { params := [("/cpl/r1", RuleVal.rule "/a/*" PrefixField.absent)],
            tracking := some "x", logGroups := ["/a/x"],
            filters := fun g => if g = "/a/x" then some "[]" else none }).2.1).2.2
        = [ApiCall.putParameter trackingParamName (joinComma ["/a/*"])]) :=
  ⟨rfl, fun g => by simp,
    (reconcile_secondRun_spec (fun _ => DeleteOutcome.ok)
      { params := [("/cpl/r1", RuleVal.rule "/a/*" PrefixField.absent)],
        tracking := some "x", logGroups := ["/a/x"],
        filters := fun g => if g = "/a/x" then some "[]" else none }
      ["/a/*"] rfl (fun g => by simp)).2.1⟩


/-! ### C1 — convergence of the `PutParameter` pass -/

/-- Does some rule record's pattern match the log group? -/
def anyRuleMatches (ps : List (String × RuleVal)) (g : String) : Bool :=
  ps.any fun nv =>
    match nv.2 with
    | RuleVal.rule pat _ => fnmatch g pat
    | _ => false

theorem scanRulesForPattern_ok :
    ∀ (ps : List (String × RuleVal)) (g : String),
      validParams ps = true → anyRuleMatches ps g = true →
      ∃ p, scanRulesForPattern ps g = Except.ok (some p) := by
  intro ps
  induction ps with
  | nil => intro g _ hm; simp [anyRuleMatches] at hm
  | cons nv rest ih =>
    intro g hv hm
    obtain ⟨pat, pf, hrule, hnn⟩ := validParams_mem hv nv (List.mem_cons_self _ _)
    obtain ⟨a, v⟩ := nv
    simp only at hrule
    subst hrule
    rw [scanRulesForPattern]
    by_cases hf : fnmatch g pat = true
    · obtain ⟨p, hpp⟩ := getPrefixExpr_ok pf hnn
      exact ⟨p, by simp [hf, hpp, Except.map]⟩
    · have hff : fnmatch g pat = false := by simpa using hf
      have hm' : anyRuleMatches rest g = true := by
        have hcons : anyRuleMatches ((a, RuleVal.rule pat pf) :: rest) g
            = (fnmatch g pat || anyRuleMatches rest g) := by
          rw [anyRuleMatches, List.any_cons]
          rfl
        rw [hcons, hff, Bool.false_or] at hm
        exact hm
      have := ih g (validParams_of_cons hv) hm'
      simpa [hff] using this

theorem lastMatchingGo_ok :
    ∀ (ps : List (String × RuleVal)) (g acc : String),
      validParams ps = true → ∃ sOut, lastMatchingGo ps g acc = Except.ok sOut := by
  intro ps
  induction ps with
  | nil => intro g acc _; exact ⟨acc, rfl⟩
  | cons nv rest ih =>
    intro g acc hv
    obtain ⟨pat, pf, hrule, -⟩ := validParams_mem hv nv (List.mem_cons_self _ _)
    rw [lastMatchingGo, hrule]
    exact ih g _ (validParams_of_cons hv)

theorem addSubscriptionFilter_ok (st : SysState) (g tv : String)
    (hv : validParams st.params = true) (hm : anyRuleMatches st.params g = true)
    (ht : st.tracking = some tv) :
    ∃ p tv2 tr2, addSubscriptionFilter st g none =
      (Except.ok (),
       { params := st.params, tracking := some tv2, logGroups := st.logGroups,
         filters := fun x => if x = g then some p else st.filters x }, tr2) := by
  obtain ⟨p, hscan⟩ := scanRulesForPattern_ok st.params g hv hm
  refine ⟨p,
    joinComma (if (splitComma tv).any (fun x => fnmatch g x)
               then splitComma tv else splitComma tv ++ [g]),
    [ApiCall.putSubscriptionFilter g p,
      ApiCall.putParameter trackingParamName
        (joinComma (if (splitComma tv).any (fun x => fnmatch g x)
                    then splitComma tv else splitComma tv ++ [g]))], ?_⟩
  rw [addSubscriptionFilter, hscan, ht]

theorem updateLoop_spec :
    ∀ (gs : List String) (st : SysState),
      validParams st.params = true →
      (∀ g ∈ gs, anyRuleMatches st.params g = true) →
      ∃ st3 tr3, updateLoop gs st = (Except.ok (), st3, tr3) ∧
        st3.params = st.params ∧ st3.logGroups = st.logGroups ∧
        (∀ g ∈ gs, (st3.filters g).isSome = true) ∧
        (∀ x, x ∉ gs → st3.filters x = st.filters x) := by
  intro gs
  induction gs with
  | nil =>
    intro st hv hm
    exact ⟨st, [], rfl, rfl, rfl, by simp, fun x _ => rfl⟩
  | cons g rest ih =>
    intro st hv hm
    obtain ⟨toAdd, hlast⟩ := lastMatchingGo_ok st.params g "" hv
    have hlast' : lastMatchingPattern st.params g = Except.ok toAdd := hlast
    obtain ⟨p, tv2, tr2, hadd⟩ :=
      addSubscriptionFilter_ok
        { st with tracking := some (joinComma (trackingCandidates st.tracking toAdd)) }
        g (joinComma (trackingCandidates st.tracking toAdd)) hv
        (hm g (List.mem_cons_self _ _)) rfl
    obtain ⟨st3, tr3, hloop, hparams3, hlogs3, hin3, hout3⟩ :=
      ih { params := st.params, tracking := some tv2, logGroups := st.logGroups,
           filters := fun x => if x = g then some p else st.filters x } hv
        (fun g2 hg2 => hm g2 (List.mem_cons_of_mem _ hg2))
    refine ⟨st3,
      ApiCall.putParameter trackingParamName
          (joinComma (trackingCandidates st.tracking toAdd)) :: (tr2 ++ tr3),
      ?_, ?_, ?_, ?_, ?_⟩
    · simp only [updateLoop, hlast', hadd, hloop]
    · simpa using hparams3
    · simpa using hlogs3
    · intro g2 hg2
      rcases List.mem_cons.mp hg2 with hg2 | hg2
      · subst hg2
        by_cases hr : g2 ∈ rest
        · exact hin3 g2 hr
        · rw [hout3 g2 hr]
          simp
      · exact hin3 g2 hg2
    · intro x hx
      have hx1 : x ∉ rest := fun hc => hx (List.mem_cons_of_mem _ hc)
      have hx2 : x ≠ g := fun hc => hx (hc ▸ List.mem_cons_self _ _)
      rw [hout3 x hx1]
      simp [hx2]

theorem updateOnExisting_spec (st : SysState) (paramName pat : String)
    (pf : PrefixField) (hv : validParams st.params = true)
    (hfind : st.params.lookup paramName = some (RuleVal.rule pat pf)) :
    ∃ st3 tr3, updateOnExistingLogGroups st paramName = (Except.ok (), st3, tr3) ∧
      st3.params = st.params ∧ st3.logGroups = st.logGroups ∧
      (∀ g ∈ st.logGroups, fnmatch g pat = true → (st3.filters g).isSome = true) ∧
      (∀ x, x ∉ st.logGroups ∨ fnmatch x pat = false → st3.filters x = st.filters x) := by
  rw [updateOnExistingLogGroups, getMatchingLogGroups, hfind]
  by_cases hm : (st.logGroups.filter fun g => fnmatch g pat) = []
  · refine ⟨st, [], by simp [hm], rfl, rfl, ?_, fun x _ => rfl⟩
    intro g hg hf
    exfalso
    have : g ∈ st.logGroups.filter fun g => fnmatch g pat :=
      List.mem_filter.mpr ⟨hg, hf⟩
    rw [hm] at this
    simp at this
  · have hmE : (st.logGroups.filter fun g => fnmatch g pat).isEmpty = false :=
      isEmpty_false_of_ne_nil hm
    have hmem := lookupMem st.params paramName (RuleVal.rule pat pf) hfind
    have hall : ∀ g ∈ st.logGroups.filter fun g => fnmatch g pat,
        anyRuleMatches st.params g = true := by
      intro g hg
      apply List.any_eq_true.mpr
      refine ⟨(paramName, RuleVal.rule pat pf), hmem, ?_⟩
      have := (List.mem_filter.mp hg).2
      simpa using this
    obtain ⟨st3, tr3, hloop, hparams3, hlogs3, hin3, hout3⟩ :=
      updateLoop_spec (st.logGroups.filter fun g => fnmatch g pat) st hv hall
    refine ⟨st3, tr3, by simp [hmE, hloop], hparams3, hlogs3, ?_, ?_⟩
    · intro g hg hf
      exact hin3 g (List.mem_filter.mpr ⟨hg, hf⟩)
    · intro x hx
      apply hout3
      intro hc
      have := List.mem_filter.mp hc
      rcases hx with hx | hx
      · exact hx this.1
      · rw [hx] at this
        simp at this

/-- C1 fails as stated: rules `{r1 : "/a/*", r2 : "/b/*"}`, log group
`"/b/x"` with no filter, and a `PutParameter` pass for `r1`.  The pass
completes, `"/b/x"` matches rule `r2`, yet it ends with no managed
filter: the add step only covers groups matching the changed rule, and
the reconcile step never adds filters. -/
theorem putParameterPass_convergence_cex :
    fnmatch "/b/x" "/b/*" = true ∧
    (putParameterPass (fun _ => DeleteOutcome.ok)
        { params := [("/cpl/r1", RuleVal.rule "/a/*" PrefixField.absent),
                     ("/cpl/r2", RuleVal.rule "/b/*" PrefixField.absent)],
          tracking := none, logGroups := ["/b/x"], filters := fun _ => none }
        "/cpl/r1").1 = Except.ok () ∧
    (putParameterPass (fun _ => DeleteOutcome.ok)
        { params := [("/cpl/r1", RuleVal.rule "/a/*" PrefixField.absent),
                     ("/cpl/r2", RuleVal.rule "/b/*" PrefixField.absent)],
          tracking := none, logGroups := ["/b/x"], filters := fun _ => none }
        "/cpl/r1").2.1.filters "/b/x" = none :=
  ⟨rfl, rfl, rfl⟩

/-- C1 amended: after a `PutParameter` pass for `paramName` (readable
rules, changed rule present, no deletion failures), every log group
matching the **changed** rule's pattern carries exactly one managed
filter; every log group matching **no** rule carries none; and a log
group matching only rules other than the changed one keeps its previous
filter state — in particular it does not gain a filter. -/
theorem putParameterPass_convergence (env : String → DeleteOutcome) (st : SysState)
    (paramName pat : String) (pf : PrefixField) (pats : List String)
    (hv : validParams st.params = true)
    (hfind : st.params.lookup paramName = some (RuleVal.rule pat pf))
    (hp : listPatterns st.params = Except.ok pats)
    (henv : ∀ g, env g ≠ DeleteOutcome.err) :
    (putParameterPass env st paramName).1 = Except.ok () ∧
    (∀ g ∈ st.logGroups, fnmatch g pat = true →
       ((putParameterPass env st paramName).2.1.filters g).isSome = true) ∧
    (∀ g ∈ st.logGroups, matchesAny g pats = false →
       (putParameterPass env st paramName).2.1.filters g = none) ∧
    (∀ g ∈ st.logGroups, fnmatch g pat = false → matchesAny g pats = true →
       (putParameterPass env st paramName).2.1.filters g = st.filters g) := by
  have hpatmem : pat ∈ pats :=
    listPatterns_mem hp paramName pat pf (lookupMem _ _ _ hfind)
  obtain ⟨st1, tr1, hupd, hparams1, hlogs1, hin1, hout1⟩ :=
    updateOnExisting_spec st paramName pat pf hv hfind
  have hp1 : listPatterns st1.params = Except.ok pats := by rw [hparams1, hp]
  obtain ⟨hok2, -, -, -, hfil2, -⟩ := reconcile_noerr_spec env st1 pats hp1 henv
  rcases hrec : reconcileSubscriptionFilters env st1 with ⟨res2, st2, tr2⟩
  rw [hrec] at hok2 hfil2
  simp only at hok2 hfil2
  cases res2 with
  | error e => exact absurd rfl hok2
  | ok r =>
    have hpass : putParameterPass env st paramName = (Except.ok (), st2, tr1 ++ tr2) := by
      simp only [putParameterPass, hupd, hrec]
    rw [hpass]
    refine ⟨rfl, ?_, ?_, ?_⟩
    · intro g hg hf
      show (st2.filters g).isSome = true
      have hmg : matchesAny g pats = true :=
        List.any_eq_true.mpr ⟨pat, hpatmem, hf⟩
      have hthis := hfil2 g
      rw [if_neg (by simp [hmg])] at hthis
      rw [hthis]
      exact hin1 g hg hf
    · intro g hg hnm
      show st2.filters g = none
      have hf : fnmatch g pat = false := by
        by_cases hc : fnmatch g pat = true
        · exfalso
          have hmg : matchesAny g pats = true := List.any_eq_true.mpr ⟨pat, hpatmem, hc⟩
          rw [hmg] at hnm
          simp at hnm
        · simpa using hc
      have hfr : st1.filters g = st.filters g := hout1 g (Or.inr hf)
      have hthis := hfil2 g
      by_cases hc : g ∈ logGroupsWithFilters st1 ∧ matchesAny g pats = false
      · rw [if_pos hc] at hthis
        rw [hthis]
      · rw [if_neg hc] at hthis
        rw [hthis, hfr]
        by_cases hs : st.filters g = none
        · exact hs
        · exfalso
          apply hc
          refine ⟨List.mem_filter.mpr ⟨by rw [hlogs1]; exact hg, ?_⟩, hnm⟩
          rw [hfr]
          simpa using Option.ne_none_iff_isSome.mp hs
    · intro g hg hf hmg
      show st2.filters g = st.filters g
      have hfr : st1.filters g = st.filters g := hout1 g (Or.inr hf)
      have hthis := hfil2 g
      rw [if_neg (by simp [hmg])] at hthis
      rw [hthis, hfr]

/-- C1 witness: one rule `"/a/*"`, one matching unfiltered log group —
after the pass the group carries the managed filter. -/
theorem putParameterPass_convergence_witness :
    validParams [("/cpl/r1", RuleVal.rule "/a/*" PrefixField.absent)] = true ∧
    (putParameterPass (fun _ => DeleteOutcome.ok)
        { params := [("/cpl/r1", RuleVal.rule "/a/*" PrefixField.absent)],
          tracking := none, logGroups := ["/a/x"], filters := fun _ => none }
        "/cpl/r1").1 = Except.ok () ∧
    ((putParameterPass (fun _ => DeleteOutcome.ok)
        { params := [("/cpl/r1", RuleVal.rule "/a/*" PrefixField.absent)],
          tracking := none, logGroups := ["/a/x"], filters := fun _ => none }
        "/cpl/r1").2.1.filters "/a/x").isSome = true :=
  ⟨rfl,
    (putParameterPass_convergence (fun _ => DeleteOutcome.ok)
      { params := [("/cpl/r1", RuleVal.rule "/a/*" PrefixField.absent)],
        tracking := none, logGroups := ["/a/x"], filters := fun _ => none }
      "/cpl/r1" "/a/*" PrefixField.absent ["/a/*"] rfl rfl rfl
      (fun g => by simp)).1,
    (putParameterPass_convergence (fun _ => DeleteOutcome.ok)
      { params := [("/cpl/r1", RuleVal.rule "/a/*" PrefixField.absent)],
        tracking := none, logGroups := ["/a/x"], filters := fun _ => none }
      "/cpl/r1" "/a/*" PrefixField.absent ["/a/*"] rfl rfl rfl
      (fun g => by simp)).2.1 "/a/x" (by simp) (by decide)⟩


/-! ### C7 — the consolidated document written by the sync -/

/-- Does `pat` occur as a contiguous substring (the occurrences
`removeAllGo` removes)? -/
def hasOccur (pat : List Char) : List Char → Bool
  | [] => pat.isEmpty
  | c :: cs => pat.isPrefixOf (c :: cs) || hasOccur pat cs

theorem isPrefixOf_append_self :
    ∀ (l t : List Char), l.isPrefixOf (l ++ t) = true := by
  intro l t
  induction l with
  | nil => cases t <;> rfl
  | cons a l ih => simp [List.isPrefixOf, ih]

theorem removeAllGo_noOccur (pat : List Char) :
    ∀ cs, hasOccur pat cs = false → removeAllGo pat cs 0 = cs := by
  intro cs
  induction cs with
  | nil => intro _; rfl
  | cons c t ih =>
    intro h
    rw [hasOccur] at h
    simp only [Bool.or_eq_false_iff] at h
    rw [removeAllGo]
    have hnp : ¬(pat.isPrefixOf (c :: t) = true ∧ 0 < pat.length) := by
      intro hc
      rw [h.1] at hc
      exact absurd hc.1 (by simp)
    rw [if_neg hnp, ih h.2]

theorem removeAllGo_skip (pat : List Char) :
    ∀ (xs rest : List Char),
      removeAllGo pat (xs ++ rest) xs.length = removeAllGo pat rest 0 := by
  intro xs
  induction xs with
  | nil => intro rest; rfl
  | cons x t ih =>
    intro rest
    show removeAllGo pat (t ++ rest) t.length = removeAllGo pat rest 0
    exact ih rest

theorem removeAllGo_strip (pat : List Char) (hne : pat ≠ []) :
    ∀ k, removeAllGo pat (pat ++ k) 0 = removeAllGo pat k 0 := by
  intro k
  rcases hp : pat with _ | ⟨p, ps⟩
  · exact absurd hp hne
  · show removeAllGo (p :: ps) (p :: (ps ++ k)) 0 = removeAllGo (p :: ps) k 0
    rw [removeAllGo]
    have hpre : (p :: ps).isPrefixOf (p :: (ps ++ k)) = true :=
      isPrefixOf_append_self (p :: ps) k
    rw [if_pos ⟨hpre, by simp⟩]
    have hskip := removeAllGo_skip (p :: ps) ps k
    simpa using hskip

theorem removeAllGo_leading (pat k : List Char) (hne : pat ≠ [])
    (hk : hasOccur pat k = false) :
    removeAllGo pat (pat ++ k) 0 = k := by
  rw [removeAllGo_strip pat hne k, removeAllGo_noOccur pat k hk]

theorem stripSlashes_id (k : List Char)
    (h1 : k.head? ≠ some '/') (h2 : k.getLast? ≠ some '/') :
    stripSlashes k = k := by
  rw [stripSlashes]
  have hd : (k.dropWhile fun c => c = '/') = k := by
    cases k with
    | nil => rfl
    | cons c t =>
      rw [List.dropWhile_cons]
      have hc : ¬(c = '/') := by
        intro hc
        exact h1 (by rw [hc]; rfl)
      simp [hc]
  rw [hd]
  have hr : (k.reverse.dropWhile fun c => c = '/') = k.reverse := by
    cases hrev : k.reverse with
    | nil => rfl
    | cons c t =>
      rw [List.dropWhile_cons]
      have hlast : k.getLast? = some c := by
        rw [← List.head?_reverse, hrev]
        rfl
      have hc : ¬(c = '/') := by
        intro hc
        rw [hc] at hlast
        exact h2 hlast
      simp [hc]
  rw [hr, List.reverse_reverse]

/-- In the normal case — a record name that is the root followed by a
key containing no further occurrence of the root and no leading or
trailing slash — the code's `replace`+`strip` normalisation equals the
spec's "root prefix stripped, slashes preserved". -/
theorem stripKey_of_normal (root k : String) (hroot : root ≠ "")
    (hocc : hasOccur root.toList k.toList = false)
    (h1 : k.toList.head? ≠ some '/') (h2 : k.toList.getLast? ≠ some '/') :
    stripKey root (root ++ k) = k := by
  rw [stripKey]
  have hl : (root ++ k).toList = root.toList ++ k.toList := by
    cases root
    cases k
    rfl
  rw [hl]
  have hne : root.toList ≠ [] := by
    intro hc
    apply hroot
    cases root with
    | mk data => exact congrArg String.mk hc
  rw [removeAllGo_leading _ _ hne hocc, stripSlashes_id _ h1 h2]
  cases k
  rfl

theorem dictInsert_ne_nil (d : List (String × JValue)) (k : String) (v : JValue) :
    dictInsert d k v ≠ [] := by
  rw [dictInsert]
  split
  · rename_i hany
    intro hc
    rw [List.map_eq_nil] at hc
    rw [hc] at hany
    simp at hany
  · simp

theorem foldl_dictInsert_ne_nil (root : String) :
    ∀ (ps : List (String × SPValue)) (d : List (String × JValue)), d ≠ [] →
      ps.foldl (fun d nv => dictInsert d (stripKey root nv.1) (paramDocValue nv.2)) d
        ≠ [] := by
  intro ps
  induction ps with
  | nil => intro d hd; exact hd
  | cons nv rest ih =>
    intro d _
    rw [List.foldl_cons]
    exact ih _ (dictInsert_ne_nil _ _ _)

theorem getAllLocalParameters_ne_nil (root : String) (ps : List (String × SPValue))
    (h : ps ≠ []) : getAllLocalParameters root ps ≠ [] := by
  rcases ps with _ | ⟨nv, rest⟩
  · exact absurd rfl h
  · rw [getAllLocalParameters, List.foldl_cons]
    exact foldl_dictInsert_ne_nil root rest _ (dictInsert_ne_nil _ _ _)

theorem lookup_map_overwrite (name : String) (v : JValue) :
    ∀ central : List (String × JValue), (central.any fun e => e.1 = name) = true →
      (central.map fun e => if e.1 = name then (name, v) else e).lookup name
        = some v := by
  intro central
  induction central with
  | nil => intro h; simp at h
  | cons e rest ih =>
    intro h
    obtain ⟨a, b⟩ := e
    rw [List.map_cons]
    by_cases he : (a, b).1 = name
    · rw [if_pos he, List.lookup]
      simp
    · rw [if_neg he, List.lookup]
      have hb : (name == a) = false := by
        simp only [beq_eq_false_iff_ne, ne_eq]
        intro hc
        exact he (by simp [← hc])
      rw [hb]
      apply ih
      rw [List.any_cons] at h
      simp only at he
      simpa [he] using h

theorem lookup_append_new (name : String) (v : JValue) :
    ∀ central : List (String × JValue), (central.any fun e => e.1 = name) = false →
      ((central ++ [(name, v)]).lookup name) = some v := by
  intro central
  induction central with
  | nil =>
    intro _
    rw [List.nil_append, List.lookup]
    simp
  | cons e rest ih =>
    intro h
    obtain ⟨a, b⟩ := e
    rw [List.cons_append, List.lookup]
    rw [List.any_cons] at h
    simp only [Bool.or_eq_false_iff] at h
    have hb : (name == a) = false := by
      simp only [beq_eq_false_iff_ne, ne_eq]
      intro hc
      have := h.1
      simp only [hc] at this
      simp at this
    rw [hb]
    exact ih h.2

theorem lookup_centralPutParam (central : List (String × JValue)) (name : String)
    (v : JValue) : ((centralPutParam central name v).lookup name) = some v := by
  rw [centralPutParam]
  by_cases hany : (central.any fun e => e.1 = name) = true
  · rw [if_pos hany]
    exact lookup_map_overwrite name v central hany
  · rw [if_neg hany]
    exact lookup_append_new name v central (by rwa [Bool.not_eq_true] at hany)

/-- C7 fails as stated: the key normalisation is Python
`name.replace(root, "").strip("/")`, which removes **every** occurrence
of the root and strips slashes from both ends — not a prefix strip with
slashes preserved.  For the record `"/cpl/a/cpl/b"` the written
document key is `"ab"`, while the claim's "root prefix stripped,
slashes preserved" key is `"a/cpl/b"`. -/
theorem sync_consolidated_cex :
    (syncParametersToCentralAccount
        { owningAccount := some "999", localAccountId := "111",
          centralParamRoot := "/accounts_cpl/", root := "/cpl/" }
        [("/cpl/a/cpl/b", SPValue.json (JValue.str "v"))] []).2.1
      = [("/accounts_cpl/111", JValue.obj [("ab", JValue.str "v")])] ∧
    stripKey "/cpl/" "/cpl/a/cpl/b" = "ab" ∧
    "ab" ≠ "a/cpl/b" :=
  ⟨rfl, rfl, by decide⟩

/-- C7 amended: with a central account configured and a non-empty local
rule set, the sync writes one document at
`{CENTRAL_SSM_PARAMETER_PREFIX}{LOCAL_ACCOUNT_ID}`, overwriting
unconditionally, whose content is exactly the mapping built by
`get_all_local_parameters` (values best-effort parsed as JSON, raw
string on parse failure), keyed by the record name with **every**
occurrence of the root removed and slashes stripped from both ends;
for names where the root occurs only as the leading prefix and the
remainder has no leading/trailing slash (the normal case), that key is
exactly the root-prefix-stripped key with slashes preserved. -/
theorem sync_consolidated_spec (cfg : SyncConfig) (ps : List (String × SPValue))
    (central : List (String × JValue))
    (hc : owningConfigured cfg = true) (hne : ps ≠ []) :
    (syncParametersToCentralAccount cfg ps central).1 = Except.ok () ∧
    (syncParametersToCentralAccount cfg ps central).2.2 =
      (if cfg.owningAccount = some cfg.localAccountId then ([] : List SyncCall)
       else [SyncCall.assumeRole]) ++
      [SyncCall.centralPutParameter (cfg.centralParamRoot ++ cfg.localAccountId)
        (JValue.obj (getAllLocalParameters cfg.root ps))] ∧
    ((syncParametersToCentralAccount cfg ps central).2.1).lookup
        (cfg.centralParamRoot ++ cfg.localAccountId)
      = some (JValue.obj (getAllLocalParameters cfg.root ps)) ∧
    (∀ n k, n = cfg.root ++ k → cfg.root ≠ "" →
       hasOccur cfg.root.toList k.toList = false →
       k.toList.head? ≠ some '/' → k.toList.getLast? ≠ some '/' →
       stripKey cfg.root n = k) := by
  have hdoc : getAllLocalParameters cfg.root ps ≠ [] :=
    getAllLocalParameters_ne_nil _ _ hne
  have hdocE : (getAllLocalParameters cfg.root ps).isEmpty = false :=
    isEmpty_false_of_ne_nil hdoc
  refine ⟨?_, ?_, ?_, ?_⟩
  · simp [syncParametersToCentralAccount, hc, hdocE]
  · simp [syncParametersToCentralAccount, hc, hdocE]
  · have hstore : (syncParametersToCentralAccount cfg ps central).2.1
        = centralPutParam central (cfg.centralParamRoot ++ cfg.localAccountId)
            (JValue.obj (getAllLocalParameters cfg.root ps)) := by
      simp [syncParametersToCentralAccount, hc, hdocE]
    rw [hstore]
    exact lookup_centralPutParam _ _ _
  · intro n k hn hroot hocc h1 h2
    rw [hn]
    exact stripKey_of_normal cfg.root k hroot hocc h1 h2

/-- C7 witness: the spec scenario — two local rule records `config1`
and `config2` under the root — synced into one central document. -/
theorem sync_consolidated_spec_witness :
    owningConfigured
        { owningAccount := some "999", localAccountId := "111",
          centralParamRoot := "/accounts_cpl/", root := "/cpl/" } = true ∧
    (syncParametersToCentralAccount
        { owningAccount := some "999", localAccountId := "111",
          centralParamRoot := "/accounts_cpl/", root := "/cpl/" }
        [("/cpl/config1", SPValue.json (JValue.obj [("setting", JValue.str "value1")])),
         ("/cpl/config2", SPValue.json (JValue.obj [("setting", JValue.str "value2")]))]
        []).2.1.lookup ("/accounts_cpl/" ++ "111")
      = some (JValue.obj (getAllLocalParameters "/cpl/"
          [("/cpl/config1", SPValue.json (JValue.obj [("setting", JValue.str "value1")])),
           ("/cpl/config2", SPValue.json (JValue.obj [("setting", JValue.str "value2")]))])) ∧
    stripKey "/cpl/" "/cpl/config1" = "config1" :=
  ⟨rfl,
    (sync_consolidated_spec
      { owningAccount := some "999", localAccountId := "111",
        centralParamRoot := "/accounts_cpl/", root := "/cpl/" }
      [("/cpl/config1", SPValue.json (JValue.obj [("setting", JValue.str "value1")])),
       ("/cpl/config2", SPValue.json (JValue.obj [("setting", JValue.str "value2")]))]
      [] rfl (by simp)).2.2.1,
    (sync_consolidated_spec
      { owningAccount := some "999", localAccountId := "111",
        centralParamRoot := "/accounts_cpl/", root := "/cpl/" }
      [("/cpl/config1", SPValue.json (JValue.obj [("setting", JValue.str "value1")])),
       ("/cpl/config2", SPValue.json (JValue.obj [("setting", JValue.str "value2")]))]
      [] rfl (by simp)).2.2.2 "/cpl/config1" "config1" rfl (by decide) (by decide)
      (by decide) (by decide)⟩


end SubFilter
